import Mathlib

/-!
Verification of the vertical manuscript layout core of Narrative_Edit.

The definitions below are shallow embeddings of the Python sources:
  * `src/narrative_edit/vertical_editor.py` — tokenizer (`_tokenize`),
    layout engine (`_rebuild_layout`), edit buffer and history
    (`_apply_edit`, `_push_history`, `undo`), search (`find`),
    and `character_count`;
  * `src/narrative_edit/main_window.py` — export adapter
    (`_tokenize_for_submission`, `_layout_submission_units`).

Text is a `List Char` (Python strings are sequences of Unicode scalar
values).  Python `int` arithmetic is embedded in `Nat`; comparisons of the
form `x == rows - 1` that would not truncate in Python are written
`x + 1 = rows` so that the `Nat` translation agrees with Python's `int`
semantics for every value of `rows`, including `rows = 0`.
-/

namespace NarrativeEdit

/-- Models Python `str.isdigit` on a single character for the character
repertoire this program manipulates: ASCII decimal digits and their
fullwidth forms (`'０'..'９'`, U+FF10–U+FF19) are Unicode decimal digits. -/
def pyIsDigit (c : Char) : Bool :=
  c.isDigit || (0xFF10 ≤ c.val && c.val ≤ 0xFF19)

/-- Token kinds, the closed set of the strings `"char"`, `"newline"`, `"tcy"`
used by `_tokenize`. -/
inductive TokenKind where
  | char
  | newline
  | tcy
deriving DecidableEq, Repr

/-- One element of the list returned by `_tokenize`: the tuple
`(start, end, text, kind)`.  `end` is a Lean keyword, so the field is named
`stop`. -/
structure Token where
  start : Nat
  stop : Nat
  text : List Char
  kind : TokenKind
deriving DecidableEq, Repr

/-- Models the loop body of `_tokenize` (vertical_editor.py).  The Python
loop scans an index `i`; here `i` is carried explicitly and the buffer tail
`text[i:]` is the list argument.  `prevIsDigit` is the digit-ness of
`text[i-1]`, i.e. `False` at `i = 0`, so `!prevIsDigit` models the Python
guard `i == 0 or not text[i - 1].isdigit()`.  The guard
`i + 2 == length or not text[i + 2].isdigit()` becomes a match on the list
two positions ahead. -/
def tokenizeAux (prevIsDigit : Bool) (i : Nat) : List Char → List Token
  | [] => []
  | ch :: rest =>
    if ch = '\n' then
      { start := i, stop := i + 1, text := [ch], kind := .newline } ::
        tokenizeAux false (i + 1) rest
    else
      match rest with
      | c2 :: rest2 =>
        if pyIsDigit ch && pyIsDigit c2 && !prevIsDigit
            && !(match rest2 with | c3 :: _ => pyIsDigit c3 | [] => false) then
          { start := i, stop := i + 2, text := [ch, c2], kind := .tcy } ::
            tokenizeAux (pyIsDigit c2) (i + 2) rest2
        else
          { start := i, stop := i + 1, text := [ch], kind := .char } ::
            tokenizeAux (pyIsDigit ch) (i + 1) (c2 :: rest2)
      | [] =>
        { start := i, stop := i + 1, text := [ch], kind := .char } ::
          tokenizeAux (pyIsDigit ch) (i + 1) []

/-- Models `VerticalManuscriptEditor._tokenize`. -/
def tokenize (text : List Char) : List Token :=
  tokenizeAux false 0 text

/-- The module-level constant `LINE_HEAD_PROHIBITED` of vertical_editor.py
(a set of one-character strings). -/
def LINE_HEAD_PROHIBITED : List Char :=
  ['、', '。', '，', '．', '！', '？', ')', ']', '｝', '〕', '〉', '》', '」', '』', '】']

/-- The module-level constant `LINE_END_PROHIBITED` of vertical_editor.py. -/
def LINE_END_PROHIBITED : List Char :=
  ['(', '[', '｛', '〔', '〈', '《', '「', '『', '【']

/-- Python `token_text in LINE_HEAD_PROHIBITED`: the set contains only
one-character strings, so a string is a member exactly when it is a single
character of the set. -/
def inLineHeadProhibited (t : List Char) : Bool :=
  match t with
  | [c] => LINE_HEAD_PROHIBITED.contains c
  | _ => false

/-- Python `token_text in LINE_END_PROHIBITED`. -/
def inLineEndProhibited (t : List Char) : Bool :=
  match t with
  | [c] => LINE_END_PROHIBITED.contains c
  | _ => false

/-- Models the dataclass `_LayoutUnit` of vertical_editor.py. -/
structure LayoutUnit where
  start : Nat
  stop : Nat
  text : List Char
  kind : TokenKind
  gcol : Nat
  row : Nat
deriving DecidableEq, Repr

/-- The mutable state threaded through the loop of `_rebuild_layout`:
`self._cursor_slots` (pairs `(gcol, row)`), `self._units` (kept in
*reverse* order here, so the head of `unitsRev` is `self._units[-1]`), and
the loop variables `row`, `gcol`. -/
structure LayoutState where
  cursorSlots : List (Nat × Nat)
  unitsRev : List LayoutUnit
  row : Nat
  gcol : Nat
deriving Repr

/-- One iteration of the token loop of `_rebuild_layout`
(vertical_editor.py lines 385–414), for one token.  `rows` is
`self._grid_rows`.  The comparisons `row == rows - 1`, `prev.gcol == gcol - 1`
and `prev.row == rows - 1` of the Python (on `int`) are rendered as
`row + 1 = rows`, `prev.gcol + 1 = gcol`, `prev.row + 1 = rows`. -/
def layoutStep (rows : Nat) (st : LayoutState) (tok : Token) : LayoutState :=
  let slots0 := st.cursorSlots.set tok.start (st.gcol, st.row)
  if tok.kind = .newline then
    { cursorSlots := slots0.set tok.stop (st.gcol + 1, 0)
      unitsRev := st.unitsRev
      row := 0
      gcol := st.gcol + 1 }
  else
    -- line-end prohibition: force-wrap before placing
    let gr1 : Nat × Nat :=
      if st.row + 1 = rows && inLineEndProhibited tok.text then (st.gcol + 1, 0)
      else (st.gcol, st.row)
    -- line-head prohibition: pull the previous unit into this column
    let pulled : List LayoutUnit × Nat :=
      match st.unitsRev with
      | prev :: rest =>
        if gr1.2 = 0 && inLineHeadProhibited tok.text
            && prev.gcol + 1 = gr1.1 && prev.row + 1 = rows then
          ({ prev with gcol := gr1.1, row := 0 } :: rest, 1)
        else (st.unitsRev, gr1.2)
      | [] => (st.unitsRev, gr1.2)
    let gcol := gr1.1
    let row := pulled.2
    -- slots for interior offsets: `for mid in range(start + 1, end)`
    let slots1 := (List.range' (tok.start + 1) (tok.stop - (tok.start + 1))).foldl
      (fun s mid => s.set mid (gcol, row)) slots0
    let unitsRev := { start := tok.start, stop := tok.stop, text := tok.text,
                      kind := tok.kind, gcol := gcol, row := row } :: pulled.1
    let adv : Nat × Nat := if row + 1 ≥ rows then (gcol + 1, 0) else (gcol, row + 1)
    { cursorSlots := slots1.set tok.stop adv
      unitsRev := unitsRev
      row := adv.2
      gcol := adv.1 }

/-- The state after the full token loop of `_rebuild_layout` on `text` with
grid height `rows`.  The slot array starts as `len(text)+1` copies of
`(0, 0)` and the cursor starts at `(gcol, row) = (0, 0)`. -/
def rebuildLayoutState (text : List Char) (rows : Nat) : LayoutState :=
  (tokenize text).foldl (layoutStep rows)
    { cursorSlots := List.replicate (text.length + 1) (0, 0)
      unitsRev := []
      row := 0
      gcol := 0 }

/-- `self._units` after `_rebuild_layout` (in document order). -/
def layoutUnits (text : List Char) (rows : Nat) : List LayoutUnit :=
  (rebuildLayoutState text rows).unitsRev.reverse

/-- `self._cursor_slots` after `_rebuild_layout`. -/
def cursorSlots (text : List Char) (rows : Nat) : List (Nat × Nat) :=
  (rebuildLayoutState text rows).cursorSlots

/-- `self._total_pages` after `_rebuild_layout`: the maximum `gcol` over all
units and all slots, then `max(1, max_col // cols + 1)`. -/
def totalPages (text : List Char) (rows cols : Nat) : Nat :=
  let st := rebuildLayoutState text rows
  let maxCol := st.unitsRev.reverse.foldl (fun m u => max m u.gcol) 0
  let maxCol := st.cursorSlots.foldl (fun m p => max m p.1) maxCol
  max 1 (maxCol / cols + 1)

/-! ### Export adapter (main_window.py) -/

/-- Models the dataclass `_SubmissionUnit` of main_window.py. -/
structure SubmissionUnit where
  gcol : Nat
  row : Nat
  text : List Char
  kind : TokenKind
deriving DecidableEq, Repr

/-- Models the loop of `MainWindow._tokenize_for_submission`, which is the
same scan as `_tokenize` but records only `(kind, text)` pairs.
`prevIsDigit` plays the same role as in `tokenizeAux`. -/
def tokenizeForSubmissionAux (prevIsDigit : Bool) : List Char → List (TokenKind × List Char)
  | [] => []
  | ch :: rest =>
    if ch = '\n' then
      (.newline, [ch]) :: tokenizeForSubmissionAux false rest
    else
      match rest with
      | c2 :: rest2 =>
        if pyIsDigit ch && pyIsDigit c2 && !prevIsDigit
            && !(match rest2 with | c3 :: _ => pyIsDigit c3 | [] => false) then
          (.tcy, [ch, c2]) :: tokenizeForSubmissionAux (pyIsDigit c2) rest2
        else
          (.char, [ch]) :: tokenizeForSubmissionAux (pyIsDigit ch) (c2 :: rest2)
      | [] =>
        (.char, [ch]) :: tokenizeForSubmissionAux (pyIsDigit ch) []

/-- Models `MainWindow._tokenize_for_submission`. -/
def tokenizeForSubmission (text : List Char) : List (TokenKind × List Char) :=
  tokenizeForSubmissionAux false text

/-- The loop state of `_layout_submission_units`: `units` (reversed, head is
`units[-1]`) and the cursor `(row, gcol)`. -/
structure SubmissionState where
  unitsRev : List SubmissionUnit
  row : Nat
  gcol : Nat
deriving Repr

/-- One iteration of the token loop of `_layout_submission_units`
(main_window.py lines 1653–1674), mirroring `layoutStep` without the slot
table. -/
def submissionStep (rows : Nat) (st : SubmissionState) (tok : TokenKind × List Char) :
    SubmissionState :=
  if tok.1 = .newline then
    { unitsRev := st.unitsRev, row := 0, gcol := st.gcol + 1 }
  else
    let gr1 : Nat × Nat :=
      if st.row + 1 = rows && inLineEndProhibited tok.2 then (st.gcol + 1, 0)
      else (st.gcol, st.row)
    let pulled : List SubmissionUnit × Nat :=
      match st.unitsRev with
      | prev :: rest =>
        if gr1.2 = 0 && inLineHeadProhibited tok.2
            && prev.gcol + 1 = gr1.1 && prev.row + 1 = rows then
          ({ prev with gcol := gr1.1, row := 0 } :: rest, 1)
        else (st.unitsRev, gr1.2)
      | [] => (st.unitsRev, gr1.2)
    let gcol := gr1.1
    let row := pulled.2
    let unitsRev : List SubmissionUnit :=
      { gcol := gcol, row := row, text := tok.2, kind := tok.1 } :: pulled.1
    let adv : Nat × Nat := if row + 1 ≥ rows then (gcol + 1, 0) else (gcol, row + 1)
    { unitsRev := unitsRev, row := adv.2, gcol := adv.1 }

/-- The state after the token loop of `_layout_submission_units`. -/
def submissionState (text : List Char) (rows : Nat) : SubmissionState :=
  (tokenizeForSubmission text).foldl (submissionStep rows)
    { unitsRev := [], row := 0, gcol := 0 }

/-- The flat `units` list of `_layout_submission_units`, in document order. -/
def submissionUnits (text : List Char) (rows : Nat) : List SubmissionUnit :=
  (submissionState text rows).unitsRev.reverse

/-- Python `page_units[page_index].append(unit)`: append `u` to the bucket
at index `i`. -/
def bucketAppend (pages : List (List SubmissionUnit)) (i : Nat) (u : SubmissionUnit) :
    List (List SubmissionUnit) :=
  pages.set i (pages.getD i [] ++ [u])

/-- Python `max(0, min(total_pages - 1, unit.gcol // cols))`. -/
def submissionPageIndex (total cols : Nat) (u : SubmissionUnit) : Nat :=
  max 0 (min (total - 1) (u.gcol / cols))

/-- Models `MainWindow._layout_submission_units`: the page-partitioned
units and the total page count `max(1, max_col // cols + 1)`, where
`max_col` ranges over the placed units only. -/
def layoutSubmissionUnits (text : List Char) (rows cols : Nat) :
    List (List SubmissionUnit) × Nat :=
  let units := submissionUnits text rows
  let maxCol := units.foldl (fun m u => max m u.gcol) 0
  let total := max 1 (maxCol / cols + 1)
  let pages := units.foldl
    (fun acc u => bucketAppend acc (submissionPageIndex total cols u) u)
    (List.replicate total [])
  (pages, total)

/-! ### Edit buffer, history, events, search (vertical_editor.py) -/

/-- The buffer-related fields of `VerticalManuscriptEditor`.  History
entries are the tuples `(text, cursor, anchor)` pushed by `_push_history`;
the widget starts with `history = [("", 0, 0)]` and `history_index = 0`.
Cursor and anchor are non-negative in every state the widget constructs, so
they are embedded as `Nat` (Python's `max(0, ...)` clamp is then the
identity). -/
structure EditorState where
  text : List Char
  cursorIndex : Nat
  anchorIndex : Nat
  modified : Bool
  savedSnapshot : List Char
  history : List (List Char × Nat × Nat)
  historyIndex : Nat
deriving DecidableEq, Repr

/-- The Qt signals the widget emits, with their payloads. -/
inductive EditorEvent where
  | modificationChanged (m : Bool)
  | characterCountChanged (n : Nat)
deriving DecidableEq, Repr

/-- Models `VerticalManuscriptEditor.character_count`:
`sum(1 for ch in self._text if ch not in {"\n", "\r"})`. -/
def character_count (text : List Char) : Nat :=
  text.countP (fun ch => !(ch == '\n' || ch == '\r'))

/-- Models `VerticalManuscriptEditor._push_history`.  The Python guard
`self._history and self._history[self._history_index] == snapshot` is
rendered as `history.get? historyIndex = some snapshot`; the two differ
only on states where Python would raise `IndexError` (index out of range),
which the widget never constructs. -/
def pushHistory (st : EditorState) : EditorState :=
  let snapshot := (st.text, st.cursorIndex, st.anchorIndex)
  if st.history.get? st.historyIndex = some snapshot then st
  else
    let history := st.history.take (st.historyIndex + 1) ++ [snapshot]
    { st with history := history, historyIndex := history.length - 1 }

/-- Models `VerticalManuscriptEditor._apply_edit` (the `_preedit_text` and
repaint side effects are outside the model; `_rebuild_layout` only
recomputes the derived state modeled separately by `rebuildLayoutState`).
Returns the new state together with the emitted signals. -/
def applyEdit (st : EditorState) (newText : List Char) (newCursor newAnchor : Nat) :
    EditorState × List EditorEvent :=
  let oldCount := character_count st.text
  let st1 : EditorState :=
    { st with
      text := newText
      cursorIndex := min newCursor newText.length
      anchorIndex := min newAnchor newText.length
      modified := newText ≠ st.savedSnapshot }
  let st2 := pushHistory st1
  let newCount := character_count newText
  (st2, [EditorEvent.modificationChanged st2.modified] ++
    (if newCount ≠ oldCount then [EditorEvent.characterCountChanged newCount] else []))

/-- Python `insert_text.replace("\r\n", "\n")`. -/
def replaceCRLF : List Char → List Char
  | '\r' :: '\n' :: rest => '\n' :: replaceCRLF rest
  | c :: rest => c :: replaceCRLF rest
  | [] => []

/-- Python `s.replace("\r\n", "\n").replace("\r", "\n")`. -/
def normalizeNewlines (t : List Char) : List Char :=
  (replaceCRLF t).map (fun c => if c = '\r' then '\n' else c)

/-- Models `VerticalManuscriptEditor._selection_range`. -/
def selectionRange (st : EditorState) : Nat × Nat :=
  (min st.cursorIndex st.anchorIndex, max st.cursorIndex st.anchorIndex)

/-- Models `VerticalManuscriptEditor._replace_selection` (a `replaceRange`
edit of the current selection `[lo, hi)`). -/
def replaceSelection (st : EditorState) (insertText : List Char) :
    EditorState × List EditorEvent :=
  let lo := (selectionRange st).1
  let hi := (selectionRange st).2
  let ins := normalizeNewlines insertText
  let newText := st.text.take lo ++ ins ++ st.text.drop hi
  let cursor := lo + ins.length
  applyEdit st newText cursor cursor

/-- Models `VerticalManuscriptEditor._apply_history_state`. -/
def applyHistoryState (st : EditorState) (text : List Char) (cursor anchor : Nat) :
    EditorState × List EditorEvent :=
  let st1 : EditorState :=
    { st with
      text := text
      cursorIndex := min cursor text.length
      anchorIndex := min anchor text.length
      modified := text ≠ st.savedSnapshot }
  (st1, [EditorEvent.modificationChanged st1.modified,
         EditorEvent.characterCountChanged (character_count text)])

/-- Models `VerticalManuscriptEditor.undo`.  The `none` branch of the match
is unreachable whenever `historyIndex` is a valid index (Python would raise
`IndexError` there). -/
def undo (st : EditorState) : EditorState × List EditorEvent :=
  if st.historyIndex = 0 then (st, [])
  else
    let idx := st.historyIndex - 1
    match st.history.get? idx with
    | some (text, cursor, anchor) =>
      applyHistoryState { st with historyIndex := idx } text cursor anchor
    | none => ({ st with historyIndex := idx }, [])

/-- Models `VerticalManuscriptEditor.redo`. -/
def redo (st : EditorState) : EditorState × List EditorEvent :=
  if st.history.length - 1 ≤ st.historyIndex then (st, [])
  else
    let idx := st.historyIndex + 1
    match st.history.get? idx with
    | some (text, cursor, anchor) =>
      applyHistoryState { st with historyIndex := idx } text cursor anchor
    | none => ({ st with historyIndex := idx }, [])

/-! #### Literal substring search (Python `str.find` / `str.rfind`) -/

/-- Whether `needle` occurs in `source` starting at offset `p`
(entirely inside `source`). -/
def matchAt (source needle : List Char) (p : Nat) : Bool :=
  (source.drop p).take needle.length == needle

/-- Scans candidate start positions `p, p+1, ...` (`fuel` many) for the
first occurrence; `-1` when none, as Python `str.find`. -/
def findLoop (source needle : List Char) (p : Nat) : Nat → Int
  | 0 => -1
  | fuel + 1 =>
    if matchAt source needle p then (p : Int)
    else findLoop source needle (p + 1) fuel

/-- Python `source.find(needle, start, stop)`: the least `p ≥ start` such
that `needle` occurs at `p` entirely before `stop`; `-1` when absent. -/
def pyFindIn (source needle : List Char) (start stop : Nat) : Int :=
  let stopC := min stop source.length
  findLoop source needle start (stopC + 1 - (needle.length + start))

/-- Python `source.find(needle, start)`. -/
def pyFind (source needle : List Char) (start : Nat) : Int :=
  pyFindIn source needle start source.length

/-- Scans candidate start positions `q, q-1, ...` (`fuel` many) for the
last occurrence, as Python `str.rfind`. -/
def rfindLoop (source needle : List Char) (q : Nat) : Nat → Int
  | 0 => -1
  | fuel + 1 =>
    if matchAt source needle q then (q : Int)
    else rfindLoop source needle (q - 1) fuel

/-- Python `source.rfind(needle, start, stop)`: the greatest `p ≥ start`
such that `needle` occurs at `p` entirely before `stop`; `-1` when absent. -/
def pyRFindIn (source needle : List Char) (start stop : Nat) : Int :=
  let stopC := min stop source.length
  rfindLoop source needle (stopC - needle.length) (stopC + 1 - (needle.length + start))

/-- Python `source.rfind(needle, start)`. -/
def pyRFind (source needle : List Char) (start : Nat) : Int :=
  pyRFindIn source needle start source.length

/-! #### Search (`VerticalManuscriptEditor.find`) -/

/-- The stdlib `re` module is external to this repository; it enters the
model as an abstract engine.  `compile pattern caseSensitive` returns
`none` exactly when `re.compile` raises `re.error` (invalid pattern); the
other fields give the spans (`match.span()`) the compiled regex reports:
`searchFrom r text start` is `r.search(text, start)`, `searchIn r text a b`
is `r.search(text, a, b)`, `lastIn`/`lastFrom` are the span of the last
match of the corresponding `r.finditer` calls. -/
structure RegexEngine where
  Compiled : Type
  compile : List Char → Bool → Option Compiled
  searchFrom : Compiled → List Char → Nat → Option (Nat × Nat)
  searchIn : Compiled → List Char → Nat → Nat → Option (Nat × Nat)
  lastIn : Compiled → List Char → Nat → Nat → Option (Nat × Nat)
  lastFrom : Compiled → List Char → Nat → Option (Nat × Nat)

/-- The failure `find` can surface to its caller: an invalid regex pattern
(a Python `re.error` escaping `find`, caught by
`MainWindow.find_in_current_editor`). -/
inductive FindError where
  | invalidPattern
deriving DecidableEq, Repr

/-- Models `VerticalManuscriptEditor.find`.  Python lowercases the whole
haystack and needle for case-insensitive literal search; `str.lower` is
embedded per-character by `Char.toLower` (adequate for the repertoire the
program manipulates).  The literal path never returns an error; on success
the state records `anchor := span.lo`, `cursor := span.hi` (repaint and
scroll side effects are outside the model). -/
def find (E : RegexEngine) (st : EditorState) (pattern : List Char)
    (forward is_regex case_sensitive : Bool) :
    Except FindError (Bool × EditorState) :=
  if pattern.isEmpty then .ok (false, st)
  else if st.text.isEmpty then .ok (false, st)
  else
    let text := st.text
    let start := if forward then max st.cursorIndex st.anchorIndex
                 else min st.cursorIndex st.anchorIndex
    let spanE : Except FindError (Option (Nat × Nat)) :=
      if is_regex then
        match E.compile pattern case_sensitive with
        | none => .error .invalidPattern
        | some regex =>
          if forward then
            match E.searchFrom regex text start with
            | some sp => .ok (some sp)
            | none => .ok (E.searchIn regex text 0 start)
          else
            match E.lastIn regex text 0 start with
            | some sp => .ok (some sp)
            | none => .ok (E.lastFrom regex text start)
      else
        let source := if case_sensitive then text else text.map Char.toLower
        let needle := if case_sensitive then pattern else pattern.map Char.toLower
        let idx : Int :=
          if forward then
            let i := pyFind source needle start
            if i < 0 then pyFindIn source needle 0 start else i
          else
            let i := pyRFindIn source needle 0 start
            if i < 0 then pyRFind source needle start else i
        if 0 ≤ idx then .ok (some (idx.toNat, idx.toNat + pattern.length))
        else .ok none
    match spanE with
    | .error e => .error e
    | .ok none => .ok (false, st)
    | .ok (some (lo, hi)) =>
      .ok (true, { st with anchorIndex := lo, cursorIndex := hi })

/-! ### Auxiliary definitions used by the theorems -/

/-- The data of a placed unit that the export contract compares:
token text, kind, and `(gcol, row)` cell.  Projects an editor
`_LayoutUnit` to a `_SubmissionUnit` (dropping the buffer offsets, which
`_SubmissionUnit` does not carry). -/
def projUnit (u : LayoutUnit) : SubmissionUnit :=
  { gcol := u.gcol, row := u.row, text := u.text, kind := u.kind }

/-- Projects an editor token to the `(kind, text)` pair recorded by
`_tokenize_for_submission`. -/
def projTok (t : Token) : TokenKind × List Char :=
  (t.kind, t.text)

/-- A regex engine whose `compile` always fails: a stand-in for `re` on a
syntactically invalid pattern. -/
def noCompileEngine : RegexEngine :=
  { Compiled := Unit
    compile := fun _ _ => none
    searchFrom := fun _ _ _ => none
    searchIn := fun _ _ _ _ => none
    lastIn := fun _ _ _ _ => none
    lastFrom := fun _ _ _ => none }

/-- A regex engine whose patterns all compile but never match: a stand-in
for `re` on a valid pattern absent from the text. -/
def noMatchEngine : RegexEngine :=
  { Compiled := Unit
    compile := fun _ _ => some ()
    searchFrom := fun _ _ _ => none
    searchIn := fun _ _ _ _ => none
    lastIn := fun _ _ _ _ => none
    lastFrom := fun _ _ _ => none }

/-- The editor state reached from a fresh empty document by typing `"a"`:
`setPlainText("")` gives history `[("", 0, 0)]`, then `_insert_text("a")`
pushes `("a", 1, 1)`. -/
def afterTypingA : EditorState :=
  { text := ['a'], cursorIndex := 1, anchorIndex := 1, modified := true
    savedSnapshot := [], history := [([], 0, 0), (['a'], 1, 1)], historyIndex := 1 }

/-- The editor state reached by typing `"ab"` in a fresh empty document
and then clicking at offset 0: the live cursor and anchor are 0, while the
current history entry still records the `("ab", 2, 2)` snapshot of the last
edit (cursor movement never pushes history). -/
def abMovedToZero : EditorState :=
  { text := ['a', 'b'], cursorIndex := 0, anchorIndex := 0, modified := true
    savedSnapshot := [], history := [([], 0, 0), (['a', 'b'], 2, 2)], historyIndex := 1 }

/-- A freshly created editor state: empty buffer, history `[("", 0, 0)]`. -/
def emptyDoc : EditorState :=
  { text := [], cursorIndex := 0, anchorIndex := 0, modified := false
    savedSnapshot := [], history := [([], 0, 0)], historyIndex := 0 }

/-- An editor state on text `"abc"` with an empty selection at offset 2. -/
def abcAtTwo : EditorState :=
  { text := ['a', 'b', 'c'], cursorIndex := 2, anchorIndex := 2, modified := false
    savedSnapshot := ['a', 'b', 'c'], history := [(['a', 'b', 'c'], 0, 0)], historyIndex := 0 }

/-- The refinement relation between the interactive layout loop state and
the export adapter's loop state: same units (up to dropping offsets), same
cursor `(row, gcol)`. -/
def LayoutRel (ls : LayoutState) (ss : SubmissionState) : Prop :=
  ss.unitsRev = ls.unitsRev.map projUnit ∧ ss.row = ls.row ∧ ss.gcol = ls.gcol

/-- The ordering invariant of the export loop: every placed unit's `gcol`
is bounded by the cursor's, and the reversed unit list is non-increasing in
`gcol` (so the units in document order are non-decreasing). -/
def SubSorted (ss : SubmissionState) : Prop :=
  (∀ u ∈ ss.unitsRev, u.gcol ≤ ss.gcol) ∧
  List.Pairwise (fun a b => b.gcol ≤ a.gcol) ss.unitsRev

/-! ## Theorems -/

/-- C7: tokenizing `"12"` yields exactly one TCY token spanning both
characters, while tokenizing `"123"` yields three separate Char tokens: a
run of three or more digits is never chunked into pairs; only an isolated
run of exactly two digits becomes a TCY token. -/
theorem C7_tcy_tokenization :
    tokenize ['1', '2'] =
      [{ start := 0, stop := 2, text := ['1', '2'], kind := .tcy }] ∧
    tokenize ['1', '2', '3'] =
      [{ start := 0, stop := 1, text := ['1'], kind := .char },
       { start := 1, stop := 2, text := ['2'], kind := .char },
       { start := 2, stop := 3, text := ['3'], kind := .char }] := by
  decide

/-- C2 counterexample: for the text `"A\nB"` at `rows = 3`, the cursor slot
table computed by `_rebuild_layout` is not `[(0,0), (1,0), (1,0), (1,1)]`
as the claim states (offset 1 is mapped to `(0, 1)`, the cell recorded
before the newline advances the column, not `(1, 0)`). -/
theorem C2_slot_table_counterexample :
    cursorSlots ['A', '\n', 'B'] 3 ≠ [(0, 0), (1, 0), (1, 0), (1, 1)] := by
  decide

/-- C2 (amended): for the text `"A\nB"` with `rows = 3`, tokenization
yields Char `'A'` on `[0,1)`, Newline on `[1,2)`, Char `'B'` on `[2,3)`;
layout places `'A'` at `(0,0)` and `'B'` at `(1,0)`; and the cursor slot
table equals `[(0,0), (0,1), (1,0), (1,1)]` — the slot for offset 1 is the
position recorded *before* the newline advances the column. -/
theorem C2_scenario :
    tokenize ['A', '\n', 'B'] =
      [{ start := 0, stop := 1, text := ['A'], kind := .char },
       { start := 1, stop := 2, text := ['\n'], kind := .newline },
       { start := 2, stop := 3, text := ['B'], kind := .char }] ∧
    (layoutUnits ['A', '\n', 'B'] 3).map (fun u => (u.text, u.gcol, u.row)) =
      [(['A'], 0, 0), (['B'], 1, 0)] ∧
    cursorSlots ['A', '\n', 'B'] 3 = [(0, 0), (0, 1), (1, 0), (1, 1)] := by
  decide

/-- C10: `character_count` equals the number of Unicode scalar values in
the buffer that are neither `'\n'` nor `'\r'`, and every
`characterCountChanged` event emitted by `_apply_edit` carries exactly that
count of the new text. -/
theorem C10_character_count :
    (∀ t : List Char,
      character_count t = (t.filter (fun ch => ch ≠ '\n' ∧ ch ≠ '\r')).length) ∧
    (∀ (st : EditorState) (nt : List Char) (nc na n : Nat),
      EditorEvent.characterCountChanged n ∈ (applyEdit st nt nc na).2 →
      n = character_count nt) := by
  constructor
  · intro t
    have hpred : (fun ch : Char => !(ch == '\n' || ch == '\r')) =
        (fun ch : Char => decide (ch ≠ '\n' ∧ ch ≠ '\r')) := by
      funext ch
      by_cases h1 : ch = '\n' <;> by_cases h2 : ch = '\r' <;> simp [h1, h2]
    rw [character_count, hpred, List.countP_eq_length_filter]
  · intro st nt nc na n h
    simp only [applyEdit, List.mem_append, List.mem_singleton] at h
    rcases h with h | h
    · cases h
    · split at h
      · rcases List.mem_singleton.mp h with h'
        cases h'
        rfl
      · cases h

/-- C10 witness: a concrete edit that emits a count event. -/
theorem C10_character_count_witness :
    character_count ['x', '\n', 'y'] =
      ((['x', '\n', 'y'] : List Char).filter (fun ch => ch ≠ '\n' ∧ ch ≠ '\r')).length ∧
    2 = character_count ['x', '\n', 'y'] :=
  ⟨C10_character_count.1 ['x', '\n', 'y'],
   C10_character_count.2 abcAtTwo ['x', '\n', 'y'] 3 3 2 (by decide)⟩

/-- C9: history is strictly linear.  An edit whose resulting
`(text, cursor, anchor)` snapshot differs from the entry at the current
index truncates all entries past the current index, appends the snapshot,
and leaves the index at the last entry; an edit whose snapshot equals the
current entry records nothing. -/
theorem C9_history_linear (st : EditorState) (newText : List Char)
    (newCursor newAnchor : Nat) (hidx : st.historyIndex < st.history.length) :
    (st.history.get ⟨st.historyIndex, hidx⟩ ≠
        (newText, min newCursor newText.length, min newAnchor newText.length) →
      (applyEdit st newText newCursor newAnchor).1.history =
        st.history.take (st.historyIndex + 1) ++
          [(newText, min newCursor newText.length, min newAnchor newText.length)] ∧
      (applyEdit st newText newCursor newAnchor).1.historyIndex =
        (applyEdit st newText newCursor newAnchor).1.history.length - 1) ∧
    (st.history.get ⟨st.historyIndex, hidx⟩ =
        (newText, min newCursor newText.length, min newAnchor newText.length) →
      (applyEdit st newText newCursor newAnchor).1.history = st.history ∧
      (applyEdit st newText newCursor newAnchor).1.historyIndex = st.historyIndex) := by
  have hget : st.history[st.historyIndex]? =
      some (st.history.get ⟨st.historyIndex, hidx⟩) := by
    simp [List.getElem?_eq_getElem hidx]
  constructor
  · intro hne
    have hcond : ¬(st.history[st.historyIndex]? =
        some (newText, min newCursor newText.length, min newAnchor newText.length)) := by
      rw [hget]
      intro hcontr
      exact hne (Option.some.inj hcontr)
    simp [applyEdit, pushHistory, hcond, List.length_take]
  · intro heq
    have hcond : st.history[st.historyIndex]? =
        some (newText, min newCursor newText.length, min newAnchor newText.length) := by
      rw [hget, heq]
    simp [applyEdit, pushHistory, hcond]

/-- C9 witness: a concrete recording edit and a concrete no-op edit. -/
theorem C9_history_linear_witness :
    ((applyEdit abcAtTwo ['z'] 1 1).1.history =
        [(['a', 'b', 'c'], 0, 0), (['z'], 1, 1)] ∧
      (applyEdit abcAtTwo ['z'] 1 1).1.historyIndex =
        (applyEdit abcAtTwo ['z'] 1 1).1.history.length - 1) ∧
    ((applyEdit abcAtTwo ['a', 'b', 'c'] 0 0).1.history = abcAtTwo.history ∧
      (applyEdit abcAtTwo ['a', 'b', 'c'] 0 0).1.historyIndex = abcAtTwo.historyIndex) :=
  ⟨(C9_history_linear abcAtTwo ['z'] 1 1 (by decide)).1 (by decide),
   (C9_history_linear abcAtTwo ['a', 'b', 'c'] 0 0 (by decide)).2 (by decide)⟩

/-- C8 counterexample: on an empty buffer, `find` with `is_regex = true`
and the syntactically invalid pattern `"("` (whose compilation fails, as
`noCompileEngine` models) returns the plain `false` "no match" result —
`find` bails out on the empty text before ever compiling the pattern — so
no distinguishable invalid-pattern failure reaches the caller. -/
theorem C8_empty_text_counterexample :
    find noCompileEngine emptyDoc ['('] true true true = .ok (false, emptyDoc) ∧
    find noCompileEngine emptyDoc ['('] true true true ≠ .error .invalidPattern := by
  constructor
  · rfl
  · intro h
    rw [show find noCompileEngine emptyDoc ['('] true true true =
      .ok (false, emptyDoc) from rfl] at h
    exact Except.noConfusion h

/-- C8 (amended): with `is_regex = true`, on a non-empty buffer and a
non-empty pattern (otherwise `find` returns `false` before consulting the
regex engine), a pattern that fails to compile surfaces as the distinct
`invalidPattern` failure (an exception in the code, raised before any
state change, so the caller's `(text, cursor, anchor)` are untouched),
while a pattern that compiles but matches nothing makes `find` return
`false` with the state unchanged. -/
theorem C8_invalid_regex_distinct (E : RegexEngine) (st : EditorState)
    (pattern : List Char) (forward cs : Bool)
    (hp : pattern ≠ []) (ht : st.text ≠ []) :
    (E.compile pattern cs = none →
      find E st pattern forward true cs = .error .invalidPattern) ∧
    (∀ r, E.compile pattern cs = some r →
      (∀ a, E.searchFrom r st.text a = none) →
      (∀ a b, E.searchIn r st.text a b = none) →
      (∀ a b, E.lastIn r st.text a b = none) →
      (∀ a, E.lastFrom r st.text a = none) →
      find E st pattern forward true cs = .ok (false, st)) := by
  have hpe : pattern.isEmpty = false := by
    cases pattern with
    | nil => exact absurd rfl hp
    | cons c l => rfl
  have hte : st.text.isEmpty = false := by
    cases h : st.text with
    | nil => exact absurd h ht
    | cons c l => rfl
  constructor
  · intro hc
    simp [find, hpe, hte, hc]
  · intro r hc h1 h2 h3 h4
    cases forward <;> simp [find, hpe, hte, hc, h1, h2, h3, h4]

/-- C8 witness: concrete engines exercising both conclusions. -/
theorem C8_invalid_regex_distinct_witness :
    find noCompileEngine abcAtTwo ['a'] true true true = .error .invalidPattern ∧
    find noMatchEngine abcAtTwo ['a'] true true true = .ok (false, abcAtTwo) :=
  ⟨(C8_invalid_regex_distinct noCompileEngine abcAtTwo ['a'] true true
      (by decide) (by decide)).1 rfl,
   (C8_invalid_regex_distinct noMatchEngine abcAtTwo ['a'] true true
      (by decide) (by decide)).2 () rfl (fun _ => rfl) (fun _ _ => rfl)
      (fun _ _ => rfl) (fun _ => rfl)⟩

/-- C6: during layout, when a non-newline token whose text is in the
line-head-prohibited set would be placed at row 0 of its column and the
immediately preceding unit sits at `(gcol - 1, rows - 1)`, that preceding
unit is relocated to `(gcol, 0)` and the current token is placed at row 1
of the same column. -/
theorem C6_line_head_pullback (rows : Nat) (st : LayoutState) (tok : Token)
    (c : Char) (hrows : 8 ≤ rows)
    (htext : tok.text = [c]) (hc : c ∈ LINE_HEAD_PROHIBITED)
    (hkind : tok.kind ≠ .newline) (hrow : st.row = 0)
    (prev : LayoutUnit) (rest : List LayoutUnit)
    (hunits : st.unitsRev = prev :: rest)
    (hprevg : prev.gcol + 1 = st.gcol) (hprevr : prev.row + 1 = rows) :
    (layoutStep rows st tok).unitsRev =
      { start := tok.start, stop := tok.stop, text := tok.text, kind := tok.kind,
        gcol := st.gcol, row := 1 } ::
      { prev with gcol := st.gcol, row := 0 } :: rest := by
  have hne : ¬((1 : Nat) = rows) := by omega
  have hmem : inLineHeadProhibited tok.text = true := by
    rw [htext]
    simpa [inLineHeadProhibited] using hc
  simp [layoutStep, hkind, hne, hunits, hmem, hprevg, hprevr, hrow]

/-- C6 witness: a closing quote that would open column 1 pulls the previous
unit (at the last row of column 0, `rows = 8`) up into column 1. -/
theorem C6_line_head_pullback_witness :
    (layoutStep 8
      { cursorSlots := [(0, 0)],
        unitsRev := [{ start := 0, stop := 1, text := ['あ'], kind := .char,
                       gcol := 0, row := 7 }],
        row := 0, gcol := 1 }
      { start := 1, stop := 2, text := ['。'], kind := .char }).unitsRev =
      [{ start := 1, stop := 2, text := ['。'], kind := .char, gcol := 1, row := 1 },
       { start := 0, stop := 1, text := ['あ'], kind := .char, gcol := 1, row := 0 }] :=
  C6_line_head_pullback 8 _ _ '。' (by decide) rfl (by decide) (by decide) rfl
    _ _ rfl (by decide) (by decide)

/-! ### Layout invariants (C3) -/

/-- Auxiliary: a left fold preserves any invariant its step preserves. -/
theorem foldl_preserves {α β : Type _} {P : β → Prop} (f : β → α → β)
    (h : ∀ b a, P b → P (f b a)) :
    ∀ (l : List α) (b : β), P b → P (l.foldl f b) := by
  intro l
  induction l with
  | nil => exact fun b hb => hb
  | cons a l ih => exact fun b hb => ih (f b a) (h b a hb)

/-- Auxiliary: writing slots with `List.set` never changes the table's
length. -/
theorem foldl_set_length (v : Nat × Nat) :
    ∀ (ps : List Nat) (s : List (Nat × Nat)),
      (ps.foldl (fun acc mid => acc.set mid v) s).length = s.length := by
  intro ps
  induction ps with
  | nil => exact fun s => rfl
  | cons p ps ih => intro s; rw [List.foldl_cons, ih, List.length_set]

/-- Auxiliary: one layout step preserves the slot-table length. -/
theorem layoutStep_slots_length (rows : Nat) (st : LayoutState) (tok : Token) :
    (layoutStep rows st tok).cursorSlots.length = st.cursorSlots.length := by
  by_cases hk : tok.kind = .newline
  · simp [layoutStep, hk]
  · simp [layoutStep, hk, List.length_set, foldl_set_length]

/-- Auxiliary: one layout step keeps every placed row below `rows` (the
pull-back row 1 needs `2 ≤ rows`; the live grid guarantees `8 ≤ rows`). -/
theorem layoutStep_row_lt (rows : Nat) (h2 : 2 ≤ rows) (st : LayoutState) (tok : Token)
    (h : st.row < rows ∧ ∀ u ∈ st.unitsRev, u.row < rows) :
    (layoutStep rows st tok).row < rows ∧
      ∀ u ∈ (layoutStep rows st tok).unitsRev, u.row < rows := by
  obtain ⟨hrow, hunits⟩ := h
  by_cases hk : tok.kind = .newline
  · refine ⟨by simp [layoutStep, hk]; omega, ?_⟩
    simpa [layoutStep, hk] using hunits
  · rcases hu : st.unitsRev with _ | ⟨prev, rest⟩ <;>
      simp only [layoutStep, if_neg hk, hu] <;>
      split_ifs <;>
      constructor <;>
      simp_all [List.mem_cons] <;>
      omega

/-- C3: for every text and grid in `[8, 80]`, the recomputed layout has a
cursor slot table of length `len(text) + 1`, and every produced LayoutUnit
has `row ∈ [0, rows)` and `gcol ≥ 0` (the latter holds by construction in
the `Nat` embedding: the Python code only ever increments `gcol` from 0). -/
theorem C3_layout_invariants (text : List Char) (rows cols : Nat)
    (hrows1 : 8 ≤ rows) (hrows2 : rows ≤ 80)
    (hcols1 : 8 ≤ cols) (hcols2 : cols ≤ 80) :
    (cursorSlots text rows).length = text.length + 1 ∧
    ∀ u ∈ layoutUnits text rows, u.row < rows ∧ 0 ≤ u.gcol := by
  constructor
  · have hlen : ∀ (toks : List Token) (st : LayoutState),
        ((toks.foldl (layoutStep rows) st).cursorSlots).length = st.cursorSlots.length := by
      intro toks
      induction toks with
      | nil => exact fun st => rfl
      | cons t ts ih => intro st; rw [List.foldl_cons, ih, layoutStep_slots_length]
    have := hlen (tokenize text)
      { cursorSlots := List.replicate (text.length + 1) (0, 0)
        unitsRev := [], row := 0, gcol := 0 }
    simpa [cursorSlots, rebuildLayoutState] using this
  · intro u hu
    refine ⟨?_, Nat.zero_le _⟩
    have h0 : (0 : Nat) < rows := by omega
    have hinv := foldl_preserves (layoutStep rows)
      (layoutStep_row_lt rows (by omega)) (tokenize text)
      { cursorSlots := List.replicate (text.length + 1) (0, 0)
        unitsRev := [], row := 0, gcol := 0 }
      ⟨h0, by simp⟩
    exact hinv.2 u (by simpa [layoutUnits, rebuildLayoutState] using hu)

/-- C3 witness: a concrete text and grid. -/
theorem C3_layout_invariants_witness :
    (cursorSlots ['A', '\n', 'B'] 8).length = 3 + 1 ∧
    ∀ u ∈ layoutUnits ['A', '\n', 'B'] 8, u.row < 8 ∧ 0 ≤ u.gcol :=
  C3_layout_invariants ['A', '\n', 'B'] 8 8 (by decide) (by decide) (by decide) (by decide)

/-! ### Edit/undo round trip (C4) -/

/-- Auxiliary: `_push_history` never touches the buffer fields. -/
theorem pushHistory_fields (s : EditorState) :
    (pushHistory s).text = s.text ∧ (pushHistory s).cursorIndex = s.cursorIndex ∧
    (pushHistory s).anchorIndex = s.anchorIndex := by
  by_cases h : s.history[s.historyIndex]? = some (s.text, s.cursorIndex, s.anchorIndex) <;>
    simp [pushHistory, h]

/-- Auxiliary: `undo` on a state with a positive in-range history index
restores the entry below it (clamping is the identity when the entry's
cursor and anchor are in range for its text). -/
theorem undo_restores (s : EditorState) (hpos : ¬(s.historyIndex = 0))
    (t : List Char) (c a : Nat)
    (hget : s.history.get? (s.historyIndex - 1) = some (t, c, a))
    (hc : c ≤ t.length) (ha : a ≤ t.length) :
    (undo s).1.text = t ∧ (undo s).1.cursorIndex = c ∧ (undo s).1.anchorIndex = a := by
  unfold undo
  rw [if_neg hpos]
  simp only [hget, applyHistoryState]
  refine ⟨?_, ?_, ?_⟩ <;> simp <;> omega

/-- Auxiliary: the state component of `_apply_edit`, unfolded. -/
theorem applyEdit_fst (st : EditorState) (newText : List Char) (newCursor newAnchor : Nat) :
    (applyEdit st newText newCursor newAnchor).1 =
      pushHistory
        { st with
          text := newText
          cursorIndex := min newCursor newText.length
          anchorIndex := min newAnchor newText.length
          modified := decide (newText ≠ st.savedSnapshot) } := rfl

/-- Auxiliary: the state component of `_replace_selection`, unfolded. -/
theorem replaceSelection_fst (st : EditorState) (ins : List Char) :
    (replaceSelection st ins).1 =
      (applyEdit st
        (st.text.take (min st.cursorIndex st.anchorIndex) ++ normalizeNewlines ins ++
          st.text.drop (max st.cursorIndex st.anchorIndex))
        (min st.cursorIndex st.anchorIndex + (normalizeNewlines ins).length)
        (min st.cursorIndex st.anchorIndex + (normalizeNewlines ins).length)).1 := rfl

/-- Auxiliary: when the new snapshot differs from the current entry,
`_push_history` truncates past the index and appends. -/
theorem pushHistory_of_ne (s : EditorState)
    (h : ¬(s.history[s.historyIndex]? = some (s.text, s.cursorIndex, s.anchorIndex))) :
    pushHistory s =
      { s with
        history := s.history.take (s.historyIndex + 1) ++
          [(s.text, s.cursorIndex, s.anchorIndex)]
        historyIndex := (s.history.take (s.historyIndex + 1) ++
          [(s.text, s.cursorIndex, s.anchorIndex)]).length - 1 } := by
  simp [pushHistory, h]

/-- Auxiliary: pushing a genuinely new snapshot and undoing recovers the
entry that was current before the push. -/
theorem pushHistory_then_undo (s : EditorState) (t : List Char) (c a : Nat)
    (hidx : s.historyIndex < s.history.length)
    (hentry : s.history.get ⟨s.historyIndex, hidx⟩ = (t, c, a))
    (hguard : ¬(s.history[s.historyIndex]? = some (s.text, s.cursorIndex, s.anchorIndex)))
    (hc : c ≤ t.length) (ha : a ≤ t.length) :
    (undo (pushHistory s)).1.text = t ∧ (undo (pushHistory s)).1.cursorIndex = c ∧
      (undo (pushHistory s)).1.anchorIndex = a := by
  rw [pushHistory_of_ne s hguard]
  have hlen : (s.history.take (s.historyIndex + 1) ++
      [(s.text, s.cursorIndex, s.anchorIndex)]).length = s.historyIndex + 2 := by
    simp [List.length_take]
    omega
  refine undo_restores _ ?_ t c a ?_ hc ha
  · show ¬((s.history.take (s.historyIndex + 1) ++
      [(s.text, s.cursorIndex, s.anchorIndex)]).length - 1 = 0)
    rw [hlen]
    omega
  · show (s.history.take (s.historyIndex + 1) ++
        [(s.text, s.cursorIndex, s.anchorIndex)]).get?
        ((s.history.take (s.historyIndex + 1) ++
          [(s.text, s.cursorIndex, s.anchorIndex)]).length - 1 - 1) = some (t, c, a)
    rw [hlen]
    rw [show s.historyIndex + 2 - 1 - 1 = s.historyIndex from by omega]
    rw [List.get?_append (by simp [List.length_take]; omega)]
    rw [List.get?_take (by omega)]
    rw [List.get?_eq_get hidx]
    rw [hentry]

/-- C4 counterexample, two failure modes of the claimed round trip.
(a) From the state reached by typing `"a"` in a fresh empty document, a
`replaceRange` edit replacing the empty selection with the empty string
changes nothing, so no history entry is recorded, and the following
`undo` steps back to the empty document instead of restoring the
pre-edit text `"a"`.  (b) From the reachable state `abMovedToZero`
(typed `"ab"`, then clicked to offset 0, so the live cursor/anchor are 0
but the current entry is `("ab", 2, 2)`), a genuine recorded edit
(inserting `"c"`) followed by `undo` restores the text but sets the
cursor to the entry's 2, not the pre-edit live 0. -/
theorem C4_roundtrip_counterexample :
    ((undo (replaceSelection afterTypingA []).1).1.text ≠ afterTypingA.text) ∧
    ((undo (replaceSelection abMovedToZero ['c']).1).1.text = abMovedToZero.text ∧
     (undo (replaceSelection abMovedToZero ['c']).1).1.cursorIndex = 2 ∧
     (undo (replaceSelection abMovedToZero ['c']).1).1.anchorIndex = 2 ∧
     (undo (replaceSelection abMovedToZero ['c']).1).1.cursorIndex ≠
       abMovedToZero.cursorIndex) := by
  decide

/-- C4 (amended): in every state with a valid history index whose current
entry's text is the buffer text (as in every reachable state: edits push
the live snapshot and undo/redo/load restore one, while cursor motion
updates neither), a `replaceRange` edit whose resulting
`(text, cursor, anchor)` differs from the current entry (so that a history
entry is recorded), followed by `undo`, restores exactly the pre-edit
text, and sets cursor and anchor to the values stored in the pre-edit
current entry — which equal the pre-edit live cursor and anchor exactly
when the cursor has not moved since that entry was recorded.  A no-op
edit records nothing and `undo` then steps past the pre-edit state, as
the counterexample also shows. -/
theorem C4_replace_undo_roundtrip (st : EditorState) (ins : List Char)
    (hidx : st.historyIndex < st.history.length)
    (htext : (st.history.get ⟨st.historyIndex, hidx⟩).1 = st.text)
    (hc : (st.history.get ⟨st.historyIndex, hidx⟩).2.1 ≤
      (st.history.get ⟨st.historyIndex, hidx⟩).1.length)
    (ha : (st.history.get ⟨st.historyIndex, hidx⟩).2.2 ≤
      (st.history.get ⟨st.historyIndex, hidx⟩).1.length)
    (hchange : ((replaceSelection st ins).1.text,
                (replaceSelection st ins).1.cursorIndex,
                (replaceSelection st ins).1.anchorIndex) ≠
               st.history.get ⟨st.historyIndex, hidx⟩) :
    (undo (replaceSelection st ins).1).1.text = st.text ∧
    (undo (replaceSelection st ins).1).1.cursorIndex =
      (st.history.get ⟨st.historyIndex, hidx⟩).2.1 ∧
    (undo (replaceSelection st ins).1).1.anchorIndex =
      (st.history.get ⟨st.historyIndex, hidx⟩).2.2 := by
  rcases hE : st.history.get ⟨st.historyIndex, hidx⟩ with ⟨t, c, a⟩
  rw [hE] at htext hc ha hchange
  set ins2 := normalizeNewlines ins with hins2
  set lo := min st.cursorIndex st.anchorIndex with hlo
  set hi := max st.cursorIndex st.anchorIndex with hhi
  set nt := st.text.take lo ++ ins2 ++ st.text.drop hi with hnt
  set cur := lo + ins2.length with hcurdef
  have htriple : ((replaceSelection st ins).1.text,
      (replaceSelection st ins).1.cursorIndex,
      (replaceSelection st ins).1.anchorIndex) =
      (nt, min cur nt.length, min cur nt.length) := by
    rw [replaceSelection_fst, applyEdit_fst]
    rw [(pushHistory_fields _).1, (pushHistory_fields _).2.1, (pushHistory_fields _).2.2]
  have hguard : ¬(st.history[st.historyIndex]? =
      some (nt, min cur nt.length, min cur nt.length)) := by
    rw [List.getElem?_eq_getElem hidx]
    intro hcontr
    apply hchange
    rw [htriple]
    have hsome := Option.some.inj hcontr
    rw [← hsome]
    exact hE
  have hres := pushHistory_then_undo
    { st with
      text := nt
      cursorIndex := min cur nt.length
      anchorIndex := min cur nt.length
      modified := decide (nt ≠ st.savedSnapshot) }
    t c a hidx hE hguard hc ha
  exact ⟨hres.1.trans htext, hres.2.1, hres.2.2⟩

/-- C4 witness: from the state `abMovedToZero` (cursor moved to 0 since
the last edit), inserting `"c"` and undoing restores the text `"ab"` and
the entry's cursor and anchor 2. -/
theorem C4_replace_undo_roundtrip_witness :
    (undo (replaceSelection abMovedToZero ['c']).1).1.text = abMovedToZero.text ∧
    (undo (replaceSelection abMovedToZero ['c']).1).1.cursorIndex = 2 ∧
    (undo (replaceSelection abMovedToZero ['c']).1).1.anchorIndex = 2 :=
  C4_replace_undo_roundtrip abMovedToZero ['c']
    (by decide) (by decide) (by decide) (by decide) (by decide)

/-! ### Search wraparound (C5) -/

/-- Auxiliary: a match that would overrun the source never succeeds (for a
non-empty needle). -/
theorem matchAt_false_of_lt (source needle : List Char) (p : Nat)
    (hne : needle ≠ []) (h : source.length < p + needle.length) :
    matchAt source needle p = false := by
  unfold matchAt
  rw [beq_eq_false_iff_ne]
  intro hcontr
  have hlen := congrArg List.length hcontr
  simp only [List.length_take, List.length_drop] at hlen
  have hnz : 0 < needle.length := List.length_pos.mpr hne
  omega

/-- Auxiliary: a successful match of a non-empty needle fits inside the
source. -/
theorem matchAt_le (source needle : List Char) (p : Nat)
    (hne : needle ≠ []) (h : matchAt source needle p = true) :
    p + needle.length ≤ source.length := by
  by_contra hc
  rw [matchAt_false_of_lt source needle p hne (by omega)] at h
  cases h

/-- Auxiliary: the scan underlying Python `str.find` reports `-1` when no
scanned position matches. -/
theorem findLoop_eq_neg_one (source needle : List Char) :
    ∀ (fuel p : Nat), (∀ j, j < fuel → matchAt source needle (p + j) = false) →
      findLoop source needle p fuel = -1 := by
  intro fuel
  induction fuel with
  | zero => intro p _; rfl
  | succ n ih =>
    intro p h
    have h0 : matchAt source needle p = false := by
      have := h 0 (by omega)
      rwa [Nat.add_zero] at this
    unfold findLoop
    rw [if_neg (by rw [h0]; exact Bool.false_ne_true)]
    refine ih (p + 1) ?_
    intro j hj
    have := h (j + 1) (by omega)
    rwa [show p + (j + 1) = p + 1 + j by omega] at this

/-- Auxiliary: when some scanned position matches, the scan returns a
matching position within the scanned range. -/
theorem findLoop_spec (source needle : List Char) :
    ∀ (fuel p : Nat), (∃ j, j < fuel ∧ matchAt source needle (p + j) = true) →
      ∃ q : Nat, findLoop source needle p fuel = (q : Int) ∧
        matchAt source needle q = true ∧ p ≤ q ∧ q + 1 ≤ p + fuel := by
  intro fuel
  induction fuel with
  | zero =>
    intro p h
    obtain ⟨j, hj, _⟩ := h
    omega
  | succ n ih =>
    intro p h
    by_cases h0 : matchAt source needle p = true
    · refine ⟨p, ?_, h0, Nat.le_refl _, by omega⟩
      unfold findLoop
      rw [if_pos h0]
    · have hstep : findLoop source needle p (n + 1) = findLoop source needle (p + 1) n := by
        unfold findLoop
        rw [if_neg h0]
        cases n <;> rfl
      obtain ⟨j, hj, hm⟩ := h
      cases j with
      | zero =>
        rw [Nat.add_zero] at hm
        exact absurd hm h0
      | succ j2 =>
        obtain ⟨q, hq, hmq, hpq, hlt⟩ := ih (p + 1)
          ⟨j2, by omega, by rwa [show p + 1 + j2 = p + (j2 + 1) by omega]⟩
        exact ⟨q, hstep ▸ hq, hmq, by omega, by omega⟩

/-- Auxiliary: Python `source.find(needle, start)` returns `-1` when no
position at or past `start` matches. -/
theorem pyFind_eq_neg_one (source needle : List Char) (start : Nat)
    (h : ∀ p, start ≤ p → matchAt source needle p = false) :
    pyFind source needle start = -1 := by
  unfold pyFind pyFindIn
  refine findLoop_eq_neg_one source needle _ start ?_
  intro j _
  exact h (start + j) (by omega)

/-- Auxiliary: Python `source.find(needle, start, stop)` succeeds when some
match lies entirely inside the bounds, and returns a matching in-bounds
position. -/
theorem pyFindIn_found (source needle : List Char) (start stop : Nat)
    (h : ∃ p, start ≤ p ∧ p + needle.length ≤ min stop source.length ∧
      matchAt source needle p = true) :
    ∃ q : Nat, pyFindIn source needle start stop = (q : Int) ∧
      matchAt source needle q = true ∧ start ≤ q ∧
      q + needle.length ≤ min stop source.length := by
  obtain ⟨p, hsp, hple, hm⟩ := h
  obtain ⟨q, hq, hmq, hge, hlt⟩ := findLoop_spec source needle
    (min stop source.length + 1 - (needle.length + start)) start
    ⟨p - start, by omega, by rwa [show start + (p - start) = p by omega]⟩
  exact ⟨q, hq, hmq, hge, by omega⟩

/-- C5 counterexample: text `"abc"` with the selection boundary at offset
2 and literal pattern `"bc"`: the pattern occurs at offset 1 (before the
boundary) and nowhere at or after the boundary, yet `find` with
`forward = true` returns `false`, because the wrapped search
`text.find(pattern, 0, start)` only sees matches that end at or before the
boundary and this occurrence straddles it. -/
theorem C5_straddle_counterexample :
    matchAt ['a', 'b', 'c'] ['b', 'c'] 1 = true ∧
    (∀ p, 2 ≤ p → matchAt ['a', 'b', 'c'] ['b', 'c'] p = false) ∧
    find noCompileEngine abcAtTwo ['b', 'c'] true false true = .ok (false, abcAtTwo) := by
  refine ⟨by decide, ?_, rfl⟩
  intro p hp
  exact matchAt_false_of_lt _ _ p (by decide) (by simp; omega)

/-- C5 (amended): for a non-empty text and non-empty literal pattern, if
the (case-folded, when insensitive) pattern occurs in the text *entirely
before* the selection's forward boundary and does not occur at or after
it, `find(pattern, forward := true)` wraps around, returns `true`, and
sets `anchor` to a match start with `cursor = anchor + len(pattern)`.  (As
the counterexample shows, an occurrence that merely *starts* before the
boundary but straddles it is not found, so the hypothesis must bound the
match end, not just its start.) -/
theorem C5_find_wraparound (E : RegexEngine) (st : EditorState)
    (pattern : List Char) (cs : Bool)
    (hpat : pattern ≠ []) (htext : st.text ≠ [])
    (hexists : ∃ p, p + pattern.length ≤ max st.cursorIndex st.anchorIndex ∧
      matchAt (if cs then st.text else st.text.map Char.toLower)
        (if cs then pattern else pattern.map Char.toLower) p = true)
    (hnone : ∀ p, max st.cursorIndex st.anchorIndex ≤ p →
      matchAt (if cs then st.text else st.text.map Char.toLower)
        (if cs then pattern else pattern.map Char.toLower) p = false) :
    ∃ lo : Nat,
      find E st pattern true false cs =
        .ok (true, { st with anchorIndex := lo, cursorIndex := lo + pattern.length }) ∧
      matchAt (if cs then st.text else st.text.map Char.toLower)
        (if cs then pattern else pattern.map Char.toLower) lo = true ∧
      lo + pattern.length ≤ max st.cursorIndex st.anchorIndex := by
  have hpe : pattern.isEmpty = false := by
    cases pattern with
    | nil => exact absurd rfl hpat
    | cons c l => rfl
  have hte : st.text.isEmpty = false := by
    cases h : st.text with
    | nil => exact absurd h htext
    | cons c l => rfl
  have hnlen : (if cs then pattern else pattern.map Char.toLower).length = pattern.length := by
    cases cs <;> simp
  have hnne : (if cs then pattern else pattern.map Char.toLower) ≠ [] := by
    cases cs <;> simp [hpat]
  obtain ⟨p, hple, hm⟩ := hexists
  have hfit : p + (if cs then pattern else pattern.map Char.toLower).length ≤
      (if cs then st.text else st.text.map Char.toLower).length :=
    matchAt_le _ _ p hnne hm
  have hfwd : pyFind (if cs then st.text else st.text.map Char.toLower)
      (if cs then pattern else pattern.map Char.toLower)
      (max st.cursorIndex st.anchorIndex) = -1 :=
    pyFind_eq_neg_one _ _ _ (fun q hq => hnone q hq)
  obtain ⟨q, hq, hmq, _, hqle⟩ := pyFindIn_found
    (if cs then st.text else st.text.map Char.toLower)
    (if cs then pattern else pattern.map Char.toLower)
    0 (max st.cursorIndex st.anchorIndex)
    ⟨p, Nat.zero_le _, by omega, hm⟩
  refine ⟨q, ?_, hmq, by omega⟩
  unfold find
  rw [if_neg (by rw [hpe]; exact Bool.false_ne_true)]
  rw [if_neg (by rw [hte]; exact Bool.false_ne_true)]
  simp only [if_pos rfl, if_neg (Bool.false_ne_true), Bool.false_eq_true, if_false, if_true]
  rw [hfwd]
  rw [if_pos (by omega : (-1 : Int) < 0)]
  rw [hq]
  rw [if_pos (by omega : (0 : Int) ≤ (q : Int))]
  simp

/-- C5 witness: searching `"ab"` forward from offset 2 in `"abc"` wraps and
selects the occurrence at offset 0. -/
theorem C5_find_wraparound_witness :
    ∃ lo : Nat,
      find noCompileEngine abcAtTwo ['a', 'b'] true false true =
        .ok (true,
          { abcAtTwo with
            anchorIndex := lo
            cursorIndex := lo + (['a', 'b'] : List Char).length }) ∧
      matchAt (if true then abcAtTwo.text else abcAtTwo.text.map Char.toLower)
        (if true then ['a', 'b'] else (['a', 'b'] : List Char).map Char.toLower) lo = true ∧
      lo + (['a', 'b'] : List Char).length ≤ max abcAtTwo.cursorIndex abcAtTwo.anchorIndex :=
  C5_find_wraparound noCompileEngine abcAtTwo ['a', 'b'] true (by decide) (by decide)
    ⟨0, by decide, by decide⟩
    (fun p hp => matchAt_false_of_lt _ _ p (by decide) (by simp [abcAtTwo] at hp ⊢; omega))

/-! ### Export adapter refinement (C1) -/

/-- Auxiliary: the export tokenizer records exactly the `(kind, text)`
projection of the editor tokenizer's output, for any scan position. -/
theorem tokenizeForSubmissionAux_eq :
    ∀ (n : Nat) (ts : List Char), ts.length ≤ n → ∀ (pv : Bool) (i : Nat),
      tokenizeForSubmissionAux pv ts = (tokenizeAux pv i ts).map projTok := by
  intro n
  induction n with
  | zero =>
    intro ts hlen pv i
    have hnil : ts = [] := List.length_eq_zero.mp (Nat.le_zero.mp hlen)
    subst hnil
    rfl
  | succ n ih =>
    intro ts hlen pv i
    cases ts with
    | nil => rfl
    | cons ch rest =>
      by_cases hch : ch = '\n'
      · unfold tokenizeForSubmissionAux tokenizeAux
        rw [if_pos hch, if_pos hch]
        simp only [List.map_cons]
        exact congrArg _ (ih rest (by simp at hlen; omega) false (i + 1))
      · cases rest with
        | nil =>
          unfold tokenizeForSubmissionAux tokenizeAux
          rw [if_neg hch, if_neg hch]
          dsimp only
          rfl
        | cons c2 rest2 =>
          unfold tokenizeForSubmissionAux tokenizeAux
          rw [if_neg hch, if_neg hch]
          dsimp only
          split_ifs with hdig
          · simp only [List.map_cons]
            exact congrArg _ (ih rest2 (by simp at hlen; omega) (pyIsDigit c2) (i + 2))
          · simp only [List.map_cons]
            exact congrArg _ (ih (c2 :: rest2) (by simp at hlen ⊢; omega) (pyIsDigit ch) (i + 1))

/-- Auxiliary: `_tokenize_for_submission` is the projection of `_tokenize`. -/
theorem tokenizeForSubmission_eq (text : List Char) :
    tokenizeForSubmission text = (tokenize text).map projTok :=
  tokenizeForSubmissionAux_eq text.length text (Nat.le_refl _) false 0

/-- Auxiliary: a fold over projected inputs preserves a binary relation
whose step does. -/
theorem foldl_rel {β γ δ ε : Type _} (R : β → γ → Prop) (f : β → δ → β) (g : γ → ε → γ)
    (proj : δ → ε) (hstep : ∀ b c d, R b c → R (f b d) (g c (proj d))) :
    ∀ (l : List δ) (b : β) (c : γ), R b c → R (l.foldl f b) ((l.map proj).foldl g c) := by
  intro l
  induction l with
  | nil => intro b c h; exact h
  | cons d ds ih => intro b c h; exact ih _ _ (hstep b c d h)

/-- Auxiliary: one export-layout step mirrors one editor-layout step. -/
theorem submissionStep_rel (rows : Nat) (ls : LayoutState) (ss : SubmissionState)
    (tok : Token) (h : LayoutRel ls ss) :
    LayoutRel (layoutStep rows ls tok) (submissionStep rows ss (projTok tok)) := by
  obtain ⟨lslots, lunits, lrow, lgcol⟩ := ls
  obtain ⟨sunits, srow, sgcol⟩ := ss
  obtain ⟨hu, hr, hg⟩ := h
  simp only at hu hr hg
  subst hu hr hg
  by_cases hk : tok.kind = .newline
  · refine ⟨?_, ?_, ?_⟩ <;> simp [layoutStep, submissionStep, projTok, hk]
  · rcases lunits with _ | ⟨prev, rest⟩ <;>
      refine ⟨?_, ?_, ?_⟩ <;>
      simp only [layoutStep, submissionStep, projTok, if_neg hk, List.map_cons,
        List.map_nil] <;>
      split_ifs <;>
      simp_all [projUnit]

/-- Auxiliary: the export layout loop tracks the editor layout loop over
the whole token stream. -/
theorem submissionState_rel (text : List Char) (rows : Nat) :
    LayoutRel (rebuildLayoutState text rows) (submissionState text rows) := by
  unfold rebuildLayoutState submissionState
  rw [tokenizeForSubmission_eq]
  exact foldl_rel LayoutRel (layoutStep rows) (submissionStep rows) projTok
    (submissionStep_rel rows) (tokenize text) _ _ ⟨rfl, rfl, rfl⟩

/-- Auxiliary: the flat export unit list is the projection of the editor's
unit list, in the same order. -/
theorem submissionUnits_eq (text : List Char) (rows : Nat) :
    submissionUnits text rows = (layoutUnits text rows).map projUnit := by
  unfold submissionUnits layoutUnits
  rw [(submissionState_rel text rows).1, List.map_reverse]

/-- Auxiliary: one export-layout step preserves the ordering invariant. -/
theorem submissionStep_sorted (rows : Nat) (ss : SubmissionState)
    (tok : TokenKind × List Char) (h : SubSorted ss) :
    SubSorted (submissionStep rows ss tok) := by
  obtain ⟨sunits, srow, sgcol⟩ := ss
  obtain ⟨hb, hp⟩ := h
  simp only at hb hp
  by_cases hk : tok.1 = .newline
  · constructor
    · intro u hu
      have := hb u (by simpa [submissionStep, hk] using hu)
      simp only [submissionStep, if_pos hk]
      omega
    · simpa [submissionStep, hk] using hp
  · rcases sunits with _ | ⟨prev, rest⟩
    · refine ⟨?_, ?_⟩ <;>
        simp only [submissionStep, if_neg hk] <;>
        dsimp only <;>
        split_ifs <;>
        simp [List.pairwise_cons]
      all_goals omega
    · have hbp : prev.gcol ≤ sgcol := hb prev (by simp)
      have hbr : ∀ u ∈ rest, u.gcol ≤ sgcol := fun u hu => hb u (by simp [hu])
      have hpp : ∀ u ∈ rest, u.gcol ≤ prev.gcol := (List.pairwise_cons.mp hp).1
      have hpr : List.Pairwise (fun a b => b.gcol ≤ a.gcol) rest :=
        (List.pairwise_cons.mp hp).2
      refine ⟨?_, ?_⟩ <;>
        simp only [submissionStep, if_neg hk] <;>
        dsimp only <;>
        split_ifs <;>
        simp only [List.pairwise_cons, List.mem_cons] <;>
        first
          | (intro u hu
             rcases hu with rfl | rfl | hu
             · (try dsimp only)
               omega
             · (try dsimp only)
               omega
             · have := hbr u hu
               (try dsimp only)
               omega)
          | (refine ⟨?_, ⟨?_, hpr⟩⟩
             · intro b hb2
               rcases hb2 with rfl | hb2
               · (try dsimp only)
                 omega
               · have := hpp b hb2
                 (try dsimp only)
                 omega
             · intro b hb2
               have h1 := hpp b hb2
               have h2 := hbr b hb2
               (try dsimp only)
               omega)

/-! #### Page partitioning -/

theorem bucketAppend_getD_self (B : List (List SubmissionUnit)) (i : Nat) (u : SubmissionUnit)
    (h : i < B.length) :
    (bucketAppend B i u).getD i [] = B.getD i [] ++ [u] := by
  unfold bucketAppend
  rw [List.getD_eq_getElem?_getD, List.getElem?_set_self', List.getD_eq_getElem?_getD]
  rw [List.getElem?_eq_getElem h]
  rfl

theorem bucketAppend_getD_ne (B : List (List SubmissionUnit)) (i p : Nat) (u : SubmissionUnit)
    (h : ¬(i = p)) :
    (bucketAppend B i u).getD p [] = B.getD p [] := by
  unfold bucketAppend
  rw [List.getD_eq_getElem?_getD, List.getElem?_set_ne h, List.getD_eq_getElem?_getD]

theorem bucketAppend_length (B : List (List SubmissionUnit)) (i : Nat) (u : SubmissionUnit) :
    (bucketAppend B i u).length = B.length := by
  simp [bucketAppend]

theorem bucketFold_length (k : SubmissionUnit → Nat) :
    ∀ (units : List SubmissionUnit) (B : List (List SubmissionUnit)),
      (units.foldl (fun acc u => bucketAppend acc (k u) u) B).length = B.length := by
  intro units
  induction units with
  | nil => intro B; rfl
  | cons u us ih => intro B; rw [List.foldl_cons, ih, bucketAppend_length]

theorem bucketFold_getD (k : SubmissionUnit → Nat) :
    ∀ (units : List SubmissionUnit) (B : List (List SubmissionUnit)),
      (∀ u ∈ units, k u < B.length) → ∀ p,
      (units.foldl (fun acc u => bucketAppend acc (k u) u) B).getD p [] =
        B.getD p [] ++ units.filter (fun u => k u = p) := by
  intro units
  induction units with
  | nil =>
    intro B _ p
    simp
  | cons u us ih =>
    intro B hlt p
    rw [List.foldl_cons]
    have hu : k u < B.length := hlt u (by simp)
    rw [ih (bucketAppend B (k u) u)
      (by rw [bucketAppend_length]; intro v hv; exact hlt v (by simp [hv])) p]
    by_cases hp : k u = p
    · subst hp
      rw [bucketAppend_getD_self B (k u) u hu]
      simp [List.filter_cons]
    · rw [bucketAppend_getD_ne B (k u) p u hp]
      simp [List.filter_cons, hp]

theorem list_ext_getD (A B : List (List SubmissionUnit)) (hlen : A.length = B.length)
    (h : ∀ p, A.getD p [] = B.getD p []) : A = B := by
  refine List.ext_getElem hlen ?_
  intro i h1 h2
  have := h i
  rwa [List.getD_eq_getElem A [] h1, List.getD_eq_getElem B [] h2] at this

theorem bucketFold_eq_map (k : SubmissionUnit → Nat) (units : List SubmissionUnit) (total : Nat)
    (hlt : ∀ u ∈ units, k u < total) :
    units.foldl (fun acc u => bucketAppend acc (k u) u) (List.replicate total []) =
      (List.range total).map (fun p => units.filter (fun u => k u = p)) := by
  refine list_ext_getD _ _ ?_ ?_
  · rw [bucketFold_length]
    simp
  · intro p
    rw [bucketFold_getD k units (List.replicate total []) (by simpa using hlt) p]
    by_cases hp : p < total
    · rw [List.getD_eq_getElem (List.replicate total ([] : List SubmissionUnit)) []
        (by simpa using hp)]
      rw [List.getD_eq_getElem
        ((List.range total).map (fun p => units.filter (fun u => k u = p))) []
        (by simpa using hp)]
      simp
    · rw [List.getD_eq_default (List.replicate total ([] : List SubmissionUnit)) []
        (by simpa using hp)]
      rw [List.getD_eq_default
        ((List.range total).map (fun p => units.filter (fun u => k u = p))) []
        (by simpa using hp)]
      rw [List.filter_eq_nil_iff.mpr ?_]
      · simp
      · intro u hu
        have := hlt u hu
        simp
        omega

theorem flatten_filter_range' (k : SubmissionUnit → Nat) :
    ∀ (l : List SubmissionUnit) (a n : Nat),
      List.Pairwise (fun x y => k x ≤ k y) l →
      (∀ x ∈ l, a ≤ k x ∧ k x < a + n) →
      ((List.range' a n).map (fun p => l.filter (fun x => k x = p))).flatten = l := by
  intro l
  induction l with
  | nil =>
    intro a n _ _
    rw [List.flatten_eq_nil_iff.mpr ?_]
    intro x hx
    obtain ⟨p, _, rfl⟩ := List.mem_map.mp hx
    exact List.filter_eq_nil_iff.mpr (fun u hu => absurd hu (List.not_mem_nil u))
  | cons x xs ih =>
    intro a n hp hb
    obtain ⟨hax, hxlt⟩ := hb x (by simp)
    have hhead : ∀ u ∈ xs, k x ≤ k u := (List.pairwise_cons.mp hp).1
    have htail : List.Pairwise (fun x y => k x ≤ k y) xs := (List.pairwise_cons.mp hp).2
    have hd : k x - a ≤ n := by omega
    have hsplit : List.range' a (k x - a) ++ List.range' (k x) (n - (k x - a)) =
        List.range' a n := by
      have h1 := List.range'_append a (k x - a) (n - (k x - a)) 1
      rw [show a + 1 * (k x - a) = k x from by omega] at h1
      rw [show (n - (k x - a)) + (k x - a) = n from by omega] at h1
      exact h1
    rw [← hsplit, List.map_append, List.flatten_append]
    have hfirst : ((List.range' a (k x - a)).map
        (fun p => (x :: xs).filter (fun u => k u = p))).flatten = [] := by
      rw [List.flatten_eq_nil_iff]
      intro q hq
      obtain ⟨p, hpmem, rfl⟩ := List.mem_map.mp hq
      have hpa : p < k x := by
        have := List.mem_range'_1.mp hpmem
        omega
      refine List.filter_eq_nil_iff.mpr ?_
      intro u hu
      rcases List.mem_cons.mp hu with rfl | hu2
      · simp
        omega
      · have := hhead u hu2
        simp
        omega
    rw [hfirst, List.nil_append]
    have hm : n - (k x - a) = (n - (k x - a) - 1) + 1 := by omega
    rw [hm, List.range'_succ, List.map_cons, List.flatten_cons]
    have hfx : (x :: xs).filter (fun u => k u = k x) = x :: xs.filter (fun u => k u = k x) := by
      simp [List.filter_cons]
    rw [hfx]
    have hmap : (List.range' (k x + 1) (n - (k x - a) - 1)).map
        (fun p => (x :: xs).filter (fun u => k u = p)) =
        (List.range' (k x + 1) (n - (k x - a) - 1)).map
        (fun p => xs.filter (fun u => k u = p)) := by
      refine List.map_congr_left ?_
      intro p hp2
      have hgt : k x < p := by
        have := List.mem_range'_1.mp hp2
        omega
      rw [List.filter_cons]
      simp [show ¬(k x = p) from by omega]
    rw [hmap]
    have hIH := ih (k x) (n - (k x - a)) htail ?_
    · rw [hm, List.range'_succ, List.map_cons, List.flatten_cons] at hIH
      rw [List.cons_append, hIH]
    · intro u hu
      refine ⟨hhead u hu, ?_⟩
      have := (hb u (by simp [hu])).2
      omega

theorem submissionState_sorted (text : List Char) (rows : Nat) :
    SubSorted (submissionState text rows) :=
  foldl_preserves (submissionStep rows)
    (fun b a hb => submissionStep_sorted rows b a hb)
    (tokenizeForSubmission text) _ ⟨by simp, List.Pairwise.nil⟩

theorem submissionUnits_sorted (text : List Char) (rows : Nat) :
    List.Pairwise (fun a b => a.gcol ≤ b.gcol) (submissionUnits text rows) := by
  unfold submissionUnits
  rw [List.pairwise_reverse]
  exact (submissionState_sorted text rows).2

theorem foldl_max_init_le {α : Type _} (f : α → Nat) :
    ∀ (l : List α) (init : Nat), init ≤ l.foldl (fun m x => max m (f x)) init := by
  intro l
  induction l with
  | nil => intro init; exact Nat.le_refl _
  | cons x xs ih =>
    intro init
    exact Nat.le_trans (Nat.le_max_left _ _) (ih (max init (f x)))

theorem le_foldl_max {α : Type _} (f : α → Nat) :
    ∀ (l : List α) (init : Nat) (x : α), x ∈ l →
      f x ≤ l.foldl (fun m y => max m (f y)) init := by
  intro l
  induction l with
  | nil => intro init x hx; cases hx
  | cons y ys ih =>
    intro init x hx
    rcases List.mem_cons.mp hx with rfl | hx2
    · exact Nat.le_trans (Nat.le_max_right init (f x)) (foldl_max_init_le f ys _)
    · exact ih _ x hx2

/-- C1 counterexample: for the text of eight newlines at `rows = cols = 8`
(inside the claimed grid range), the editor's `_rebuild_layout` reports 2
pages — its `max_col` scan includes the cursor slot table, and the final
slot sits at global column 8, on a second page — while the export
adapter's `_layout_submission_units`, whose `max_col` scan covers only
placed units (there are none), reports 1 page. -/
theorem C1_page_count_counterexample :
    (layoutSubmissionUnits (List.replicate 8 '\n') 8 8).2 = 1 ∧
    totalPages (List.replicate 8 '\n') 8 8 = 2 := by
  decide

/-- C1 (amended): for every text and every grid in `[8, 80]`, the export
adapter's layout produces, in order, exactly the same placed units (same
text, kind, and `(gcol, row)` cell) as the interactive editor's layout at
the same `rows × cols` — the adapter is a pure function of
`(text, rows, cols)`, independent of the editor's configured grid — and
the adapter's page count never exceeds the editor's.  (Page counts can
differ, as the counterexample shows: the editor also counts the page of
the final cursor slot, the adapter only pages containing placed units.) -/
theorem C1_export_layout_refines_editor (text : List Char) (rows cols : Nat)
    (hr1 : 8 ≤ rows) (hr2 : rows ≤ 80) (hc1 : 8 ≤ cols) (hc2 : cols ≤ 80) :
    (layoutSubmissionUnits text rows cols).1.flatten =
      (layoutUnits text rows).map projUnit ∧
    (layoutSubmissionUnits text rows cols).2 ≤ totalPages text rows cols := by
  set U := submissionUnits text rows with hU
  set M := U.foldl (fun m u => max m u.gcol) 0 with hM
  set total := max 1 (M / cols + 1) with htotal
  have hbound : ∀ u ∈ U, u.gcol / cols ≤ M / cols :=
    fun u hu => Nat.div_le_div_right (le_foldl_max (fun v => v.gcol) U 0 u hu)
  have hklt : ∀ u ∈ U, submissionPageIndex total cols u < total := by
    intro u hu
    have := hbound u hu
    unfold submissionPageIndex
    omega
  constructor
  · have hsorted : List.Pairwise
        (fun a b => submissionPageIndex total cols a ≤ submissionPageIndex total cols b) U := by
      refine (submissionUnits_sorted text rows).imp ?_
      intro a b hab
      have : a.gcol / cols ≤ b.gcol / cols := Nat.div_le_div_right hab
      unfold submissionPageIndex
      omega
    have hpages : (layoutSubmissionUnits text rows cols).1 =
        (List.range total).map
          (fun p => U.filter (fun u => submissionPageIndex total cols u = p)) := by
      show U.foldl (fun acc u => bucketAppend acc (submissionPageIndex total cols u) u)
          (List.replicate total []) = _
      exact bucketFold_eq_map _ U total hklt
    rw [hpages, List.range_eq_range']
    rw [flatten_filter_range' _ U 0 total hsorted
      (fun x hx => ⟨Nat.zero_le _, by have := hklt x hx; omega⟩)]
    exact submissionUnits_eq text rows
  · have hfin : (layoutSubmissionUnits text rows cols).2 = total := rfl
    rw [hfin]
    have hMeq : M = (layoutUnits text rows).foldl (fun m u => max m u.gcol) 0 := by
      rw [hM, hU, submissionUnits_eq text rows, List.foldl_map]
      rfl
    have hM2 : totalPages text rows cols =
        max 1 (((rebuildLayoutState text rows).cursorSlots.foldl (fun m p => max m p.1)
          ((rebuildLayoutState text rows).unitsRev.reverse.foldl
            (fun m u => max m u.gcol) 0)) / cols + 1) := rfl
    rw [hM2]
    have hle : (layoutUnits text rows).foldl (fun m u => max m u.gcol) 0 ≤
        (rebuildLayoutState text rows).cursorSlots.foldl (fun m p => max m p.1)
          ((rebuildLayoutState text rows).unitsRev.reverse.foldl
            (fun m u => max m u.gcol) 0) :=
      foldl_max_init_le (fun p : Nat × Nat => p.1) _ _
    rw [← hMeq] at hle
    have hdiv : M / cols ≤
        ((rebuildLayoutState text rows).cursorSlots.foldl (fun m p => max m p.1)
          ((rebuildLayoutState text rows).unitsRev.reverse.foldl
            (fun m u => max m u.gcol) 0)) / cols := Nat.div_le_div_right hle
    omega

/-- C1 witness: a concrete text and grid on which the refinement holds. -/
theorem C1_export_layout_refines_editor_witness :
    (layoutSubmissionUnits ['A', '\n', 'B'] 8 8).1.flatten =
      (layoutUnits ['A', '\n', 'B'] 8).map projUnit ∧
    (layoutSubmissionUnits ['A', '\n', 'B'] 8 8).2 ≤ totalPages ['A', '\n', 'B'] 8 8 :=
  C1_export_layout_refines_editor ['A', '\n', 'B'] 8 8
    (by decide) (by decide) (by decide) (by decide)

end NarrativeEdit
